import Mathlib

/-!
Verification of the review-analysis core of the AI-Agent-UX-Analyzer
repository (`src/data_processing/data_processor.py`,
`src/clustering/cluster_analyzer.py`, `src/llm_analysis/llm_analyzer.py`).

Texts are modelled as lists of Unicode code points (`List Nat`); the
character classes of the Python regular expressions (`\w`, `\s`, the kept
punctuation class) are modelled on the ASCII range, which is the range the
source's regular expressions spell out.  Each definition is a direct
translation of the corresponding Python function; external collaborators
(scikit-learn's `KMeans.fit_predict`, TextBlob, NLTK) are abstract
function parameters, so every theorem quantifies over their behaviour.
-/

/-- Code points of a string, the bridge from concrete examples to the
`List Nat` text model. -/
def enc (s : String) : List Nat :=
  s.data.map Char.toNat

/-- Python `\s` on the ASCII range: space, tab, newline, carriage return,
vertical tab, form feed. -/
def isSpaceCp (n : Nat) : Bool :=
  n = 32 || n = 9 || n = 10 || n = 13 || n = 11 || n = 12

/-- Python `\w` on the ASCII range: digits, letters and underscore. -/
def isWordCp (n : Nat) : Bool :=
  (48 ≤ n && n ≤ 57) || (65 ≤ n && n ≤ 90) || (97 ≤ n && n ≤ 122) || n = 95

/-- The punctuation kept by `clean_text`'s character filter:
`.` `!` `?` `,` `;` `:` `-` `(` `)`. -/
def isKeptPunct (n : Nat) : Bool :=
  n = 46 || n = 33 || n = 63 || n = 44 || n = 59 || n = 58 || n = 45 || n = 40 || n = 41

/-- A code point surviving `re.sub(r'[^\w\s\.\!\?\,\;\:\-\(\)]', '', text)`. -/
def isKeptCp (n : Nat) : Bool :=
  isWordCp n || isSpaceCp n || isKeptPunct n

/-- `str.lower()` on the ASCII range: shift `A`–`Z` (65–90) by 32. -/
def lowerCp (n : Nat) : Nat :=
  if 65 ≤ n ∧ n ≤ 90 then n + 32 else n

/-- One repetition unit of the URL regular expression
`(?:[a-zA-Z]|[0-9]|[$-_@.&+]|[!*\\(\\),]|(?:%[0-9a-fA-F][0-9a-fA-F]))`:
since `%` and the hexadecimal digits are already single-character
alternatives, the repeated body matches exactly the runs of this class. -/
def isUrlBodyCp (n : Nat) : Bool :=
  (97 ≤ n && n ≤ 122) || (65 ≤ n && n ≤ 90) || (48 ≤ n && n ≤ 57) ||
  (36 ≤ n && n ≤ 95) || n = 33 || n = 42 || n = 92 || n = 40 || n = 41 || n = 44

/-- The `[s]?://` part after a literal `http` (greedy optional `s`). -/
def urlAfterScheme : List Nat → Option (List Nat)
  | 58 :: 47 :: 47 :: rest => some rest
  | 115 :: 58 :: 47 :: 47 :: rest => some rest
  | _ => none

/-- Leftmost match of the URL regular expression at the head of the text:
literal `http`, optional `s`, `://`, then a non-empty greedy run of body
characters.  Returns the text after the match. -/
def matchUrlAt : List Nat → Option (List Nat)
  | 104 :: 116 :: 116 :: 112 :: rest =>
    match urlAfterScheme rest with
    | some r =>
      match r.takeWhile isUrlBodyCp with
      | [] => none
      | _ :: _ => some (r.dropWhile isUrlBodyCp)
    | none => none
  | _ => none

/-- `re.sub(url_regex, '', text)`: scan left to right, removing each
leftmost match and continuing after it.  The fuel argument bounds the
recursion; with fuel at least the length of the text (as used below) the
fuel is never exhausted. -/
def removeUrlsF : Nat → List Nat → List Nat
  | 0, cs => cs
  | _ + 1, [] => []
  | fuel + 1, c :: cs =>
    match matchUrlAt (c :: cs) with
    | some rest => removeUrlsF fuel rest
    | none => c :: removeUrlsF fuel cs

def removeUrls (cs : List Nat) : List Nat :=
  removeUrlsF cs.length cs

/-- Whether a maximal non-whitespace run is matched by `\S+@\S+`: by
leftmost-greedy matching this holds exactly when the run has an `@` (64)
that is neither its first nor its last character, and then the whole run
is the match. -/
def runHasInnerAt (run : List Nat) : Bool :=
  ((run.drop 1).dropLast).contains 64

/-- `re.sub(r'\S+@\S+', '', text)`: whitespace is kept, and each maximal
non-whitespace run is dropped exactly when it contains an interior `@`. -/
def removeEmailsF : Nat → List Nat → List Nat
  | 0, cs => cs
  | _ + 1, [] => []
  | fuel + 1, c :: cs =>
    if isSpaceCp c then c :: removeEmailsF fuel cs
    else
      let run := (c :: cs).takeWhile (fun x => !isSpaceCp x)
      let rest := (c :: cs).dropWhile (fun x => !isSpaceCp x)
      if runHasInnerAt run then removeEmailsF fuel rest
      else run ++ removeEmailsF fuel rest

def removeEmails (cs : List Nat) : List Nat :=
  removeEmailsF cs.length cs

/-- `re.sub(r'\s+', ' ', text)`: each maximal whitespace run becomes one
space.  The boolean records whether the scan is inside a whitespace run
whose replacement space was already emitted. -/
def collapseWsAux : Bool → List Nat → List Nat
  | _, [] => []
  | inRun, c :: cs =>
    if isSpaceCp c then
      if inRun then collapseWsAux true cs
      else 32 :: collapseWsAux true cs
    else c :: collapseWsAux false cs

def collapseWs (cs : List Nat) : List Nat :=
  collapseWsAux false cs

/-- Python `str.strip()`: drop leading and trailing whitespace. -/
def stripCp (cs : List Nat) : List Nat :=
  (((cs.dropWhile isSpaceCp).reverse).dropWhile isSpaceCp).reverse

/-- `DataProcessor.clean_text`: lowercase, strip URLs, strip e-mail
addresses, drop characters outside the kept class, collapse whitespace
runs, trim. -/
def clean_text (text : List Nat) : List Nat :=
  stripCp (collapseWs ((removeEmails (removeUrls (text.map lowerCp))).filter isKeptCp))

/-- Python `str.split()` with no argument: maximal non-whitespace runs,
empty runs discarded.  Fuel as in `removeUrlsF`. -/
def splitWsF : Nat → List Nat → List (List Nat)
  | 0, _ => []
  | _ + 1, [] => []
  | fuel + 1, c :: cs =>
    if isSpaceCp c then splitWsF fuel cs
    else
      (c :: cs).takeWhile (fun x => !isSpaceCp x) ::
        splitWsF fuel ((c :: cs).dropWhile (fun x => !isSpaceCp x))

def splitWs (cs : List Nat) : List (List Nat) :=
  splitWsF cs.length cs

/-! ## Review records and `DataProcessor.clean_reviews` -/

/-- The fields of a raw review record that the core reads or copies. -/
structure Review where
  text : List Nat
  rating : Nat
  author : List Nat
deriving DecidableEq

/-- A review surviving `clean_reviews`: the record copy with `text`
replaced by the cleaned text and the two derived fields added. -/
structure CleanedReview where
  text : List Nat
  rating : Nat
  author : List Nat
  text_length : Nat
  word_count : Nat
deriving DecidableEq

/-- The `data_processing` configuration keys read by `clean_reviews`,
with the source defaults 20/1000/3 available as `defaultProcessingConfig`. -/
structure ProcessingConfig where
  min_review_length : Nat
  max_review_length : Nat
  min_word_count : Nat
deriving DecidableEq

def defaultProcessingConfig : ProcessingConfig :=
  ⟨20, 1000, 3⟩

/-- The body of the `clean_reviews` loop for one review:
`text = review.get('text', '').strip()`, skip when the stripped length is
outside the configured range, clean, skip when the cleaned word count or
cleaned length is too small, else emit the updated record. -/
def clean_one_review (cfg : ProcessingConfig) (r : Review) : Option CleanedReview :=
  let text := stripCp r.text
  if text.length < cfg.min_review_length ∨ cfg.max_review_length < text.length then none
  else
    let cleaned := clean_text text
    if (splitWs cleaned).length < cfg.min_word_count then none
    else if cleaned.length < cfg.min_review_length then none
    else some ⟨cleaned, r.rating, r.author, cleaned.length, (splitWs cleaned).length⟩

/-- `DataProcessor.clean_reviews`: the per-review loop keeps the surviving
records in input order. -/
def clean_reviews (cfg : ProcessingConfig) (reviews : List Review) : List CleanedReview :=
  reviews.filterMap (clean_one_review cfg)

/-! ## Sentiment and keywords -/

/-- A TextBlob sentiment result; scores are modelled as rationals. -/
structure Sentiment where
  polarity : ℚ
  subjectivity : ℚ
deriving DecidableEq

/-- `DataProcessor.extract_sentiment`.  TextBlob is the abstract
`backend`: `none` models `TEXTBLOB_AVAILABLE = False`, and a `.error`
result models the `except` branch of the `try`. -/
def extract_sentiment (backend : Option (List Nat → Except (List Nat) Sentiment))
    (text : List Nat) : Sentiment :=
  match backend with
  | none => ⟨0, 0⟩
  | some f =>
    match f text with
    | .ok s => s
    | .error _ => ⟨0, 0⟩

/-- The NLTK collaborators used by `DataProcessor.extract_keywords`; a
`.error` from `tokenize` models the `except` branch of the `try`. -/
structure NltkTools where
  tokenize : List Nat → Except (List Nat) (List (List Nat))
  stop_words : List (List Nat)
  lemmatize : List Nat → List Nat

/-- Python `str.isalpha` on the ASCII range (the empty string is not
alphabetic). -/
def isAlphaTok (w : List Nat) : Bool :=
  !w.isEmpty && w.all (fun n => (65 ≤ n && n ≤ 90) || (97 ≤ n && n ≤ 122))

/-- `DataProcessor.extract_keywords`: with no NLTK, the first 10
whitespace tokens longer than 3 characters; with NLTK, tokenize the
lowercased text, keep non-stop-word alphabetic tokens longer than 3,
lemmatize each, and keep the first 10. -/
def extract_keywords (tools : Option NltkTools) (text : List Nat) : List (List Nat) :=
  match tools with
  | none => ((splitWs text).filter (fun w => decide (3 < w.length))).take 10
  | some tk =>
    match tk.tokenize (text.map lowerCp) with
    | .error _ => []
    | .ok tokens =>
      ((tokens.filter (fun t =>
          !tk.stop_words.contains t && decide (3 < t.length) && isAlphaTok t)).map
        tk.lemmatize).take 10

/-! ## Clustering (`ClusterAnalyzer`) -/

/-- One entry of the `clusters` dictionary built by
`_perform_clustering`. -/
structure ClusterInfo where
  id : Nat
  size : Nat
  reviews : List CleanedReview
  texts : List (List Nat)
  indices : List Nat
deriving DecidableEq

/-- The result dictionary of `_perform_clustering` (the fitted estimator
object itself is not modelled). -/
structure ClusteringOutput where
  n_clusters : Nat
  cluster_labels : List Nat
  clusters : List ClusterInfo
deriving DecidableEq

/-- `np.where(cluster_labels == label)[0]`: the row indices carrying the
given label, in increasing order. -/
def indicesOf (labels : List Nat) (l : Nat) : List Nat :=
  (List.range labels.length).filter (fun i => labels.getD i (l + 1) == l)

/-- `ClusterAnalyzer._perform_clustering`: `KMeans(...).fit_predict` is
the abstract `fit_predict`, called with the configured cluster count, the
hard-coded `random_state=42` and `n_init=10`, and the feature matrix; the
label list is then grouped into the per-label cluster records. -/
def perform_clustering (fit_predict : Nat → Nat → Nat → List (List ℚ) → List Nat)
    (n_clusters : Nat) (matrix : List (List ℚ)) (texts : List (List Nat))
    (reviews : List CleanedReview) : ClusteringOutput :=
  let labels := fit_predict n_clusters 42 10 matrix
  let uniq := labels.dedup
  { n_clusters := uniq.length
    cluster_labels := labels
    clusters := uniq.map (fun l =>
      { id := l
        size := (indicesOf labels l).length
        reviews := (indicesOf labels l).filterMap (fun i => reviews[i]?)
        texts := (indicesOf labels l).filterMap (fun i => texts[i]?)
        indices := indicesOf labels l }) }

/-- The failures `ClusterAnalyzer.analyze` can surface: the `ValueError`
raised on an empty corpus (the specification's `EmptyInputError`), or an
error of a downstream collaborator (e.g. the vectorizer). -/
inductive AnalyzeError
  | emptyInput
  | downstream (msg : List Nat)
deriving DecidableEq

/-- The vectorizer result consumed by clustering. -/
structure TfidfFeats where
  matrix : List (List ℚ)
  feature_names : List (List Nat)

/-- `ClusterAnalyzer.analyze`: extract the review texts, raise the
empty-input `ValueError` when there are none, then vectorize and
cluster.  The TF-IDF vectorizer is the abstract fallible `vectorize`. -/
def analyze (vectorize : List (List Nat) → Except (List Nat) TfidfFeats)
    (fit_predict : Nat → Nat → Nat → List (List ℚ) → List Nat)
    (n_clusters : Nat) (reviews : List CleanedReview) :
    Except AnalyzeError ClusteringOutput :=
  let texts := reviews.map (fun r => r.text)
  if texts.isEmpty then .error .emptyInput
  else
    match vectorize texts with
    | .error e => .error (.downstream e)
    | .ok feats => .ok (perform_clustering fit_predict n_clusters feats.matrix texts reviews)

/-! ## Cluster summaries (`LLMAnalyzer._prepare_cluster_summaries`) -/

/-- A representative sample as exposed to the generation step: the review
text and nothing else. -/
structure RepresentativeReview where
  text : List Nat
deriving DecidableEq

/-- One cluster summary record. -/
structure ClusterSummary where
  id : List Nat
  size : Nat
  representative_reviews : List RepresentativeReview
deriving DecidableEq

/-- The summary built for one non-empty cluster: full size, first 10
member reviews in order, each reduced to its text. -/
def summaryOfCluster (cid : List Nat) (cluster_reviews : List CleanedReview) :
    ClusterSummary :=
  ⟨cid, cluster_reviews.length, (cluster_reviews.take 10).map (fun r => ⟨r.text⟩)⟩

/-- `LLMAnalyzer._prepare_cluster_summaries` on the clusters dictionary
(modelled as the association list of `cluster_id` keys to member review
lists, in dictionary order): empty clusters are skipped, the others are
summarised in order. -/
def prepare_cluster_summaries (clusters : List (List Nat × List CleanedReview)) :
    List ClusterSummary :=
  clusters.filterMap (fun c => if c.2.isEmpty then none else some (summaryOfCluster c.1 c.2))

/-! ## Response parsing (`LLMAnalyzer._parse_comprehensive_response`) -/

inductive SectionKind
  | insightsK
  | recommendationsK
  | summaryK
deriving DecidableEq

structure ParsedSections where
  insights : List Nat
  recommendations : List Nat
  summary : List Nat
deriving DecidableEq

/-- The `'## 💡 UX INSIGHTS'` marker, exactly as its code points appear in
the source file. -/
def insightsMarker : List Nat :=
  [35, 35, 32, 240, 376, 8217, 161, 32, 85, 88, 32, 73, 78, 83, 73, 71, 72, 84, 83]

/-- The `'## 🎯 UX RECOMMENDATIONS'` marker, exactly as its code points
appear in the source file. -/
def recommendationsMarker : List Nat :=
  [35, 35, 32, 240, 376, 381, 175, 32, 85, 88, 32,
   82, 69, 67, 79, 77, 77, 69, 78, 68, 65, 84, 73, 79, 78, 83]

/-- The `'## 📋 EXECUTIVE SUMMARY'` marker, exactly as its code points
appear in the source file. -/
def summaryMarker : List Nat :=
  [35, 35, 32, 240, 376, 8220, 8249, 32, 69, 88, 69, 67, 85, 84, 73, 86, 69, 32, 83, 85, 77, 77, 65, 82, 89]

/-- Python `response.split('\n')` (keeps empty pieces). -/
def splitOnNl : List Nat → List (List Nat)
  | [] => [[]]
  | c :: cs =>
    match splitOnNl cs with
    | [] => [[]]
    | l :: ls => if c = 10 then [] :: l :: ls else (c :: l) :: ls

/-- `sections[current_section] += line + '\n'`. -/
def addToSection (k : SectionKind) (content : List Nat) (s : ParsedSections) :
    ParsedSections :=
  match k with
  | .insightsK => { s with insights := s.insights ++ content }
  | .recommendationsK => { s with recommendations := s.recommendations ++ content }
  | .summaryK => { s with summary := s.summary ++ content }

/-- One iteration of the parsing loop: strip the line, switch section on a
marker, otherwise accumulate a non-empty line into the current section. -/
def parseLine (st : Option SectionKind × ParsedSections) (rawLine : List Nat) :
    Option SectionKind × ParsedSections :=
  let line := stripCp rawLine
  if insightsMarker.isPrefixOf line then (some .insightsK, st.2)
  else if recommendationsMarker.isPrefixOf line then (some .recommendationsK, st.2)
  else if summaryMarker.isPrefixOf line then (some .summaryK, st.2)
  else
    match st.1 with
    | some k => if line.isEmpty then st else (some k, addToSection k (line ++ [10]) st.2)
    | none => st

/-- `LLMAnalyzer._parse_comprehensive_response`: fold the loop over the
lines; if every section stayed empty, fall back to returning the whole
response as `insights`. -/
def parse_comprehensive_response (response : List Nat) : ParsedSections :=
  let result := ((splitOnNl response).foldl parseLine (none, ⟨[], [], []⟩)).2
  if result.insights.isEmpty ∧ result.recommendations.isEmpty ∧ result.summary.isEmpty
  then ⟨response, [], []⟩ else result

/-! ## Concrete inputs used by witnesses and counterexamples -/

/-- A review whose raw text is `"ok"` (the specification's Scenario B). -/
def okReview : Review :=
  ⟨enc "ok", 5, enc "anon"⟩

/-- A review that survives every filter under the default configuration. -/
def goodReview : Review :=
  ⟨enc "this app works very well indeed", 4, enc "anon"⟩

/-- A review whose raw text has length 1001 (above the default
`max_review_length` of 1000) but only because of 980 trailing spaces: the
stripped text has length 21 and survives every filter. -/
def longReview : Review :=
  ⟨enc "hello world again yes" ++ List.replicate 980 32, 3, enc "anon"⟩

/-- A response whose first line is the literal text `"## RECOMMENDATIONS"`
(the marker string quoted by the claim), followed by one content line. -/
def cexResponse : List Nat :=
  enc "## RECOMMENDATIONS" ++ [10] ++ enc "add dark mode"

/-- A response whose first line is the code's actual recommendations
marker, followed by one content line. -/
def scenCResponse : List Nat :=
  recommendationsMarker ++ [10] ++ enc "add dark mode"

/-- A two-line response containing no recognised marker. -/
def dResponse : List Nat :=
  enc "hello" ++ [10] ++ enc "world"

/-- A concrete stand-in for `KMeans(...).fit_predict`. -/
def wFitPredict : Nat → Nat → Nat → List (List ℚ) → List Nat :=
  fun _ _ _ _ => [0, 1, 0]

/-- A second stand-in that agrees with `wFitPredict` whenever the seed
argument is 42. -/
def wFitPredictSeeded : Nat → Nat → Nat → List (List ℚ) → List Nat :=
  fun _ seed _ _ => if seed = 42 then [0, 1, 0] else [9]

/-- A three-row feature matrix. -/
def wMatrix : List (List ℚ) :=
  [[1], [2], [3]]

/-- A concrete stand-in for the TextBlob sentiment collaborator. -/
def wBackend : List Nat → Except (List Nat) Sentiment :=
  fun _ => .ok ⟨1 / 2, 1 / 2⟩

/-- A concrete stand-in for the TF-IDF vectorizer. -/
def wVectorize : List (List Nat) → Except (List Nat) TfidfFeats :=
  fun _ => .ok ⟨[], []⟩

/-- A cleaned review record. -/
def wCReview : CleanedReview :=
  ⟨enc "good app overall", 5, enc "anon", 16, 3⟩

/-- A clusters dictionary with one non-empty and one empty cluster. -/
def wClusters : List (List Nat × List CleanedReview) :=
  [(enc "cluster_0", [wCReview]), (enc "cluster_1", [])]

example : clean_text (enc "  Hello,  WORLD!  ") = enc "hello, world!" := by decide
example : clean_text (enc "see http://a.b/c now") = enc "see now" := by decide
example : clean_text (enc "mail me@x.org ok") = enc "mail ok" := by decide
example : splitWs (enc "a bb  ccc ") = [enc "a", enc "bb", enc "ccc"] := by decide

/-! ## Lemmas about the cleaning pipeline -/

/-- Two adjacent code points are not both whitespace. -/
def noTwoSpaces (a b : Nat) : Prop :=
  ¬(isSpaceCp a = true ∧ isSpaceCp b = true)

theorem mem_urlAfterScheme {l r : List Nat} (h : urlAfterScheme l = some r) :
    ∀ x ∈ r, x ∈ l := by
  unfold urlAfterScheme at h
  split at h
  · cases h; intro x hx; simp [hx]
  · cases h; intro x hx; simp [hx]
  · exact absurd h (by simp)

theorem slash_mem_of_urlAfterScheme {l r : List Nat} (h : urlAfterScheme l = some r) :
    47 ∈ l := by
  unfold urlAfterScheme at h
  split at h
  · simp
  · simp
  · exact absurd h (by simp)

theorem mem_matchUrlAt {cs rest : List Nat} (h : matchUrlAt cs = some rest) :
    ∀ x ∈ rest, x ∈ cs := by
  unfold matchUrlAt at h
  split at h
  · rename_i rest0
    cases hs : urlAfterScheme rest0 with
    | none => rw [hs] at h; exact absurd h (by simp)
    | some r =>
      rw [hs] at h
      dsimp only at h
      cases ht : r.takeWhile isUrlBodyCp with
      | nil => rw [ht] at h; exact absurd h (by simp)
      | cons a l =>
        rw [ht] at h
        dsimp only at h
        cases h
        intro x hx
        have hxr : x ∈ r := (List.dropWhile_sublist _).mem hx
        have := mem_urlAfterScheme hs x hxr
        simp [this]
  · exact absurd h (by simp)

theorem slash_mem_of_matchUrlAt {cs rest : List Nat} (h : matchUrlAt cs = some rest) :
    47 ∈ cs := by
  unfold matchUrlAt at h
  split at h
  · rename_i rest0
    cases hs : urlAfterScheme rest0 with
    | none => rw [hs] at h; exact absurd h (by simp)
    | some r =>
      have := slash_mem_of_urlAfterScheme hs
      simp [this]
  · exact absurd h (by simp)

theorem mem_removeUrlsF : ∀ fuel cs x, x ∈ removeUrlsF fuel cs → x ∈ cs := by
  intro fuel
  induction fuel with
  | zero => intro cs x h; simpa [removeUrlsF] using h
  | succ fuel ih =>
    intro cs x h
    cases cs with
    | nil => simp [removeUrlsF] at h
    | cons c cs =>
      rw [removeUrlsF] at h
      cases hm : matchUrlAt (c :: cs) with
      | some rest =>
        rw [hm] at h
        exact mem_matchUrlAt hm x (ih rest x h)
      | none =>
        rw [hm] at h
        rcases List.mem_cons.mp h with h | h
        · simp [h]
        · exact List.mem_cons_of_mem _ (ih cs x h)

theorem removeUrlsF_id : ∀ fuel cs, 47 ∉ cs → removeUrlsF fuel cs = cs := by
  intro fuel
  induction fuel with
  | zero => intro cs _; rfl
  | succ fuel ih =>
    intro cs h
    cases cs with
    | nil => rfl
    | cons c cs =>
      rw [removeUrlsF]
      cases hm : matchUrlAt (c :: cs) with
      | some rest => exact absurd (slash_mem_of_matchUrlAt hm) h
      | none =>
        rw [ih cs (fun hc => h (List.mem_cons_of_mem _ hc))]

theorem mem_removeEmailsF : ∀ fuel cs x, x ∈ removeEmailsF fuel cs → x ∈ cs := by
  intro fuel
  induction fuel with
  | zero => intro cs x h; simpa [removeEmailsF] using h
  | succ fuel ih =>
    intro cs x h
    cases cs with
    | nil => simp [removeEmailsF] at h
    | cons c cs =>
      rw [removeEmailsF] at h
      by_cases hc : isSpaceCp c
      · rw [if_pos hc] at h
        rcases List.mem_cons.mp h with h | h
        · simp [h]
        · exact List.mem_cons_of_mem _ (ih cs x h)
      · rw [if_neg hc] at h
        simp only at h
        split at h
        · exact (List.dropWhile_sublist _).mem (ih _ x h)
        · rcases List.mem_append.mp h with h | h
          · exact (List.takeWhile_sublist _).mem h
          · exact (List.dropWhile_sublist _).mem (ih _ x h)

theorem removeEmailsF_id : ∀ fuel cs, 64 ∉ cs → removeEmailsF fuel cs = cs := by
  intro fuel
  induction fuel with
  | zero => intro cs _; rfl
  | succ fuel ih =>
    intro cs h
    cases cs with
    | nil => rfl
    | cons c cs =>
      rw [removeEmailsF]
      by_cases hc : isSpaceCp c
      · rw [if_pos hc, ih cs (fun hx => h (List.mem_cons_of_mem _ hx))]
      · rw [if_neg hc]
        simp only
        have hrun : runHasInnerAt ((c :: cs).takeWhile (fun x => !isSpaceCp x)) = false := by
          rcases hr : runHasInnerAt ((c :: cs).takeWhile (fun x => !isSpaceCp x)) with _ | _
          · rfl
          · exfalso
            unfold runHasInnerAt at hr
            simp only [List.contains, List.elem_iff] at hr
            exact h ((List.takeWhile_sublist _).mem
              (List.mem_of_mem_drop (List.mem_of_mem_dropLast hr)))
        rw [hrun]
        simp only [Bool.false_eq_true, if_false]
        rw [ih _ (fun hx => h ((List.dropWhile_sublist _).mem hx))]
        exact List.takeWhile_append_dropWhile _ _

theorem mem_collapseWsAux : ∀ cs b x, x ∈ collapseWsAux b cs → x = 32 ∨ x ∈ cs := by
  intro cs
  induction cs with
  | nil => intro b x h; simp [collapseWsAux] at h
  | cons c cs ih =>
    intro b x h
    rw [collapseWsAux] at h
    by_cases hc : isSpaceCp c
    · rw [if_pos hc] at h
      cases b with
      | true =>
        rw [if_pos rfl] at h
        rcases ih true x h with h | h
        · exact Or.inl h
        · exact Or.inr (List.mem_cons_of_mem _ h)
      | false =>
        rw [if_neg (by simp)] at h
        rcases List.mem_cons.mp h with h | h
        · exact Or.inl h
        · rcases ih true x h with h | h
          · exact Or.inl h
          · exact Or.inr (List.mem_cons_of_mem _ h)
    · rw [if_neg hc] at h
      rcases List.mem_cons.mp h with h | h
      · exact Or.inr (by simp [h])
      · rcases ih false x h with h | h
        · exact Or.inl h
        · exact Or.inr (List.mem_cons_of_mem _ h)

theorem collapseWsAux_shape : ∀ cs b,
    (∀ x ∈ collapseWsAux b cs, isSpaceCp x = true → x = 32) ∧
    List.Chain' noTwoSpaces (collapseWsAux b cs) ∧
    (b = true → ∀ a, (collapseWsAux b cs).head? = some a → isSpaceCp a = false) := by
  intro cs
  induction cs with
  | nil => intro b; refine ⟨by simp [collapseWsAux], by simp [collapseWsAux], ?_⟩
           intro _ a h; simp [collapseWsAux] at h
  | cons c cs ih =>
    intro b
    rw [collapseWsAux]
    by_cases hc : isSpaceCp c
    · rw [if_pos hc]
      cases b with
      | true =>
        rw [if_pos rfl]
        exact ih true
      | false =>
        rw [if_neg (by simp)]
        refine ⟨?_, ?_, ?_⟩
        · intro x hx hsp
          rcases List.mem_cons.mp hx with h | h
          · exact h
          · exact (ih true).1 x h hsp
        · rw [List.chain'_cons']
          refine ⟨?_, (ih true).2.1⟩
          intro y hy
          have := (ih true).2.2 rfl y hy
          exact fun hss => by rw [this] at hss; exact absurd hss.2 (by simp)
        · intro hb'; exact absurd hb' (by simp)
    · rw [if_neg hc]
      refine ⟨?_, ?_, ?_⟩
      · intro x hx hsp
        rcases List.mem_cons.mp hx with h | h
        · subst h; exact absurd hsp (by simp [hc])
        · exact (ih false).1 x h hsp
      · rw [List.chain'_cons']
        refine ⟨?_, (ih false).2.1⟩
        intro y _
        exact fun hss => hc (by simp [hss.1])
      · intro _ a ha
        simp only [List.head?_cons, Option.some.injEq] at ha
        subst ha
        simpa using hc

theorem collapseWsAux_id : ∀ cs b,
    (∀ x ∈ cs, isSpaceCp x = true → x = 32) →
    List.Chain' noTwoSpaces cs →
    (b = true → ∀ a, cs.head? = some a → isSpaceCp a = false) →
    collapseWsAux b cs = cs := by
  intro cs
  induction cs with
  | nil => intro b _ _ _; rfl
  | cons c cs ih =>
    intro b hblank hchain hhead
    rw [collapseWsAux]
    by_cases hc : isSpaceCp c
    · have hb : b = false := by
        cases b with
        | false => rfl
        | true => exact absurd hc (by simp [hhead rfl c rfl])
      subst hb
      rw [if_pos hc, if_neg (by simp)]
      have hc32 : c = 32 := hblank c (List.mem_cons_self _ _) hc
      rw [hc32]
      congr 1
      refine ih true (fun x hx => hblank x (List.mem_cons_of_mem _ hx))
        hchain.tail ?_
      intro _ a ha
      have := (List.chain'_cons'.mp hchain).1 a ha
      rcases hsa : isSpaceCp a with _ | _
      · rfl
      · exact absurd ⟨hc, hsa⟩ this
    · rw [if_neg hc]
      congr 1
      refine ih false (fun x hx => hblank x (List.mem_cons_of_mem _ hx))
        hchain.tail ?_
      intro h; exact absurd h (by simp)

theorem mem_stripCp {cs : List Nat} {x : Nat} (h : x ∈ stripCp cs) : x ∈ cs := by
  unfold stripCp at h
  have h1 := List.mem_reverse.mp h
  have h2 := (List.dropWhile_sublist _).mem h1
  have h3 := List.mem_reverse.mp h2
  exact (List.dropWhile_sublist _).mem h3

theorem head?_dropWhile_not (p : Nat → Bool) : ∀ (l : List Nat) (a : Nat),
    (l.dropWhile p).head? = some a → p a = false := by
  intro l
  induction l with
  | nil => intro a h; simp [List.dropWhile] at h
  | cons c cs ih =>
    intro a h
    rw [List.dropWhile_cons] at h
    by_cases hc : p c
    · rw [if_pos hc] at h; exact ih a h
    · rw [if_neg hc] at h
      simp only [List.head?_cons, Option.some.injEq] at h
      subst h
      simpa using hc

theorem stripCp_head_not (cs : List Nat) :
    ∀ a, (stripCp cs).head? = some a → isSpaceCp a = false := by
  intro a h
  have hsuf : ((cs.dropWhile isSpaceCp).reverse).dropWhile isSpaceCp <:+
      (cs.dropWhile isSpaceCp).reverse :=
    ⟨_, List.takeWhile_append_dropWhile _ _⟩
  obtain ⟨t, ht⟩ := hsuf
  have hA : cs.dropWhile isSpaceCp =
      (((cs.dropWhile isSpaceCp).reverse).dropWhile isSpaceCp).reverse ++ t.reverse := by
    have h' := congrArg List.reverse ht
    simpa [List.reverse_append] using h'.symm
  have hheadA : (cs.dropWhile isSpaceCp).head? = some a := by
    rw [hA, List.head?_append]
    unfold stripCp at h
    rw [h]
    rfl
  exact head?_dropWhile_not isSpaceCp cs a hheadA

theorem stripCp_last_not (cs : List Nat) :
    ∀ a, (stripCp cs).getLast? = some a → isSpaceCp a = false := by
  intro a h
  unfold stripCp at h
  rw [List.getLast?_reverse] at h
  exact head?_dropWhile_not isSpaceCp _ a h

theorem chain_stripCp {cs : List Nat} (h : List.Chain' noTwoSpaces cs) :
    List.Chain' noTwoSpaces (stripCp cs) := by
  have hsym : ∀ l : List Nat, List.Chain' noTwoSpaces l →
      List.Chain' noTwoSpaces l.reverse := by
    intro l hl
    rw [List.chain'_reverse]
    exact List.Chain'.imp (fun a b hab hx => hab ⟨hx.2, hx.1⟩) hl
  have h1 : List.Chain' noTwoSpaces (cs.dropWhile isSpaceCp) :=
    h.suffix ⟨_, List.takeWhile_append_dropWhile _ _⟩
  have h2 := hsym _ h1
  have h3 : List.Chain' noTwoSpaces ((cs.dropWhile isSpaceCp).reverse.dropWhile isSpaceCp) :=
    h2.suffix ⟨_, List.takeWhile_append_dropWhile _ _⟩
  exact hsym _ h3

theorem clean_text_chars {s : List Nat} :
    ∀ x ∈ clean_text s, isKeptCp x = true ∧ ¬(65 ≤ x ∧ x ≤ 90) := by
  intro x hx
  unfold clean_text collapseWs at hx
  have h4 := mem_stripCp hx
  rcases mem_collapseWsAux _ _ _ h4 with h32 | h3
  · subst h32; exact ⟨by decide, by decide⟩
  · have hkept := (List.mem_filter.mp h3).2
    have h2 : x ∈ removeEmails (removeUrls (s.map lowerCp)) := (List.mem_filter.mp h3).1
    have h1 : x ∈ removeUrls (s.map lowerCp) := mem_removeEmailsF _ _ _ h2
    have h0 : x ∈ s.map lowerCp := mem_removeUrlsF _ _ _ h1
    obtain ⟨y, _, hy⟩ := List.mem_map.mp h0
    refine ⟨hkept, ?_⟩
    subst hy
    unfold lowerCp
    split <;> omega

theorem clean_text_blank {s : List Nat} :
    ∀ x ∈ clean_text s, isSpaceCp x = true → x = 32 := by
  intro x hx hsp
  unfold clean_text collapseWs at hx
  exact (collapseWsAux_shape _ false).1 x (mem_stripCp hx) hsp

theorem clean_text_chain (s : List Nat) :
    List.Chain' noTwoSpaces (clean_text s) := by
  unfold clean_text collapseWs
  exact chain_stripCp (collapseWsAux_shape _ false).2.1

theorem clean_text_head_not (s : List Nat) :
    ∀ a, (clean_text s).head? = some a → isSpaceCp a = false := by
  unfold clean_text
  exact stripCp_head_not _

theorem clean_text_last_not (s : List Nat) :
    ∀ a, (clean_text s).getLast? = some a → isSpaceCp a = false := by
  unfold clean_text
  exact stripCp_last_not _

theorem dropWhile_eq_self_of_head (p : Nat → Bool) (cs : List Nat)
    (h : ∀ a, cs.head? = some a → p a = false) : cs.dropWhile p = cs := by
  cases cs with
  | nil => rfl
  | cons c cs' => rw [List.dropWhile_cons, if_neg (by simp [h c rfl])]

theorem stripCp_id {cs : List Nat}
    (hh : ∀ a, cs.head? = some a → isSpaceCp a = false)
    (hl : ∀ a, cs.getLast? = some a → isSpaceCp a = false) :
    stripCp cs = cs := by
  unfold stripCp
  rw [dropWhile_eq_self_of_head _ _ hh]
  rw [dropWhile_eq_self_of_head _ _ (fun a ha => hl a (by rwa [List.head?_reverse] at ha))]
  exact List.reverse_reverse cs

theorem map_lowerCp_id {cs : List Nat} (h : ∀ x ∈ cs, ¬(65 ≤ x ∧ x ≤ 90)) :
    cs.map lowerCp = cs := by
  have h' : ∀ x ∈ cs, lowerCp x = id x := by
    intro x hx; unfold lowerCp; rw [if_neg (h x hx)]; rfl
  rw [List.map_congr_left h', List.map_id]

/-- A text already satisfying all the output invariants of `clean_text`
is a fixed point of `clean_text`. -/
theorem clean_text_fixed {t : List Nat}
    (hkept : ∀ x ∈ t, isKeptCp x = true)
    (hup : ∀ x ∈ t, ¬(65 ≤ x ∧ x ≤ 90))
    (hblank : ∀ x ∈ t, isSpaceCp x = true → x = 32)
    (hchain : List.Chain' noTwoSpaces t)
    (hhead : ∀ a, t.head? = some a → isSpaceCp a = false)
    (hlast : ∀ a, t.getLast? = some a → isSpaceCp a = false) :
    clean_text t = t := by
  have hslash : 47 ∉ t := fun h47 => absurd (hkept 47 h47) (by decide)
  have hat : 64 ∉ t := fun h64 => absurd (hkept 64 h64) (by decide)
  unfold clean_text
  rw [map_lowerCp_id hup]
  unfold removeUrls
  rw [removeUrlsF_id _ _ hslash]
  unfold removeEmails
  rw [removeEmailsF_id _ _ hat]
  rw [List.filter_eq_self.mpr hkept]
  unfold collapseWs
  rw [collapseWsAux_id t false hblank hchain (fun h => absurd h (by simp))]
  exact stripCp_id hhead hlast

/-! ## Claim theorems -/

/-- Claim C3: the text-cleaning function is idempotent: for every input
text, re-applying `clean_text` (lowercase, URL strip, e-mail strip,
character filtering, whitespace collapse, trim, in that fixed order) to
already-cleaned text yields the same text. -/
theorem claim_C3_clean_text_idempotent (s : List Nat) :
    clean_text (clean_text s) = clean_text s :=
  clean_text_fixed
    (fun x hx => (clean_text_chars x hx).1)
    (fun x hx => (clean_text_chars x hx).2)
    clean_text_blank
    (clean_text_chain s)
    (clean_text_head_not s)
    (clean_text_last_not s)

/-- Claim C10: for every input text, the output of `clean_text` contains
no characters outside word characters, whitespace and the kept
punctuation, no uppercase letters (code points 65–90), no two consecutive
whitespace characters, and no leading or trailing whitespace. -/
theorem claim_C10_clean_text_shape (s : List Nat) :
    (∀ x ∈ clean_text s, isKeptCp x = true) ∧
    (∀ x ∈ clean_text s, ¬(65 ≤ x ∧ x ≤ 90)) ∧
    List.Chain' noTwoSpaces (clean_text s) ∧
    (∀ a, (clean_text s).head? = some a → isSpaceCp a = false) ∧
    (∀ a, (clean_text s).getLast? = some a → isSpaceCp a = false) :=
  ⟨fun x hx => (clean_text_chars x hx).1,
   fun x hx => (clean_text_chars x hx).2,
   clean_text_chain s,
   clean_text_head_not s,
   clean_text_last_not s⟩

/-- Claim C7: for every review text the extracted keyword list has length
at most 10, and without the linguistic toolkit the extraction returns
exactly the first 10 whitespace tokens of length strictly greater than 3,
with no stop-word removal or lemmatization. -/
theorem claim_C7_keyword_bound (tools : Option NltkTools) (text : List Nat) :
    (extract_keywords tools text).length ≤ 10 ∧
    extract_keywords none text =
      ((splitWs text).filter (fun w => decide (3 < w.length))).take 10 := by
  refine ⟨?_, rfl⟩
  cases tools with
  | none => simp only [extract_keywords]; exact List.length_take_le _ _
  | some tk =>
    simp only [extract_keywords]
    split
    · exact Nat.zero_le 10
    · exact List.length_take_le _ _

/-- Claim C6: sentiment extraction never raises; with the tooling
unavailable it returns the neutral `{polarity: 0, subjectivity: 0}`, and
with the tooling available (whose successful results satisfy TextBlob's
documented ranges) the returned polarity lies in `[-1, 1]` and the
subjectivity in `[0, 1]` — also when the backend fails, since the neutral
fallback is in range. -/
theorem claim_C6_sentiment_ranges
    (f : List Nat → Except (List Nat) Sentiment) (text : List Nat)
    (hf : ∀ t s, f t = Except.ok s → -1 ≤ s.polarity ∧ s.polarity ≤ 1 ∧
      0 ≤ s.subjectivity ∧ s.subjectivity ≤ 1) :
    extract_sentiment none text = ⟨0, 0⟩ ∧
    (-1 ≤ (extract_sentiment (some f) text).polarity ∧
      (extract_sentiment (some f) text).polarity ≤ 1 ∧
      0 ≤ (extract_sentiment (some f) text).subjectivity ∧
      (extract_sentiment (some f) text).subjectivity ≤ 1) := by
  refine ⟨rfl, ?_⟩
  simp only [extract_sentiment]
  split
  · rename_i s hft
    exact hf text s hft
  · exact ⟨by norm_num, by norm_num, le_refl 0, by norm_num⟩

/-- Claim C6, witness: a concrete in-range backend satisfies the range
hypothesis, and the extracted sentiment is in range. -/
theorem claim_C6_witness :
    (∀ t s, wBackend t = Except.ok s → -1 ≤ s.polarity ∧ s.polarity ≤ 1 ∧
      0 ≤ s.subjectivity ∧ s.subjectivity ≤ 1) ∧
    (-1 ≤ (extract_sentiment (some wBackend) (enc "good")).polarity ∧
      (extract_sentiment (some wBackend) (enc "good")).polarity ≤ 1 ∧
      0 ≤ (extract_sentiment (some wBackend) (enc "good")).subjectivity ∧
      (extract_sentiment (some wBackend) (enc "good")).subjectivity ≤ 1) :=
  ⟨fun t s h => by
      cases h
      exact ⟨by norm_num, by norm_num, by norm_num, by norm_num⟩,
    (claim_C6_sentiment_ranges wBackend (enc "good")
      (fun t s h => by
        cases h
        exact ⟨by norm_num, by norm_num, by norm_num, by norm_num⟩)).2⟩

/-- Claim C8: clustering analysis on an empty review sequence fails with
exactly the empty-input error, and on a non-empty sequence it never
produces that error (any failure comes from the downstream
collaborators). -/
theorem claim_C8_empty_input
    (vectorize : List (List Nat) → Except (List Nat) TfidfFeats)
    (fit_predict : Nat → Nat → Nat → List (List ℚ) → List Nat) (k : Nat) :
    analyze vectorize fit_predict k [] = .error .emptyInput ∧
    (∀ reviews : List CleanedReview, reviews ≠ [] →
      analyze vectorize fit_predict k reviews ≠ .error .emptyInput) := by
  refine ⟨rfl, ?_⟩
  intro reviews hne
  unfold analyze
  cases reviews with
  | nil => exact absurd rfl hne
  | cons r rs =>
    rw [if_neg (by simp)]
    cases vectorize ((r :: rs).map (fun r => r.text)) with
    | error e => simp
    | ok feats => simp

/-- Claim C8, witness: a concrete one-review input is non-empty and does
not produce the empty-input error. -/
theorem claim_C8_witness :
    ([wCReview] ≠ ([] : List CleanedReview)) ∧
    analyze wVectorize wFitPredict 8 [wCReview] ≠ .error .emptyInput :=
  ⟨by decide, (claim_C8_empty_input wVectorize wFitPredict 8).2 [wCReview] (by decide)⟩

/-- Claim C2: the clustering step is deterministic: two invocations on
identical inputs give identical results (the embedded step is a pure
function), and the result depends on the abstract `fit_predict` only
through its behaviour at the hard-coded seed 42 and 10 restarts, the
values the source always passes. -/
theorem claim_C2_cluster_deterministic
    (f g : Nat → Nat → Nat → List (List ℚ) → List Nat)
    (k : Nat) (matrix : List (List ℚ)) (texts : List (List Nat))
    (reviews : List CleanedReview) :
    (perform_clustering f k matrix texts reviews =
      perform_clustering f k matrix texts reviews) ∧
    ((∀ k' m', f k' 42 10 m' = g k' 42 10 m') →
      perform_clustering f k matrix texts reviews =
        perform_clustering g k matrix texts reviews) := by
  refine ⟨rfl, fun h => ?_⟩
  unfold perform_clustering
  rw [h k matrix]

/-- Claim C2, witness: two concrete label functions agreeing at seed 42
give identical clustering results. -/
theorem claim_C2_witness :
    (∀ k' m', wFitPredict k' 42 10 m' = wFitPredictSeeded k' 42 10 m') ∧
    perform_clustering wFitPredict 2 wMatrix [] [] =
      perform_clustering wFitPredictSeeded 2 wMatrix [] [] :=
  ⟨fun _ _ => rfl,
    (claim_C2_cluster_deterministic wFitPredict wFitPredictSeeded 2 wMatrix [] []).2
      (fun _ _ => rfl)⟩

/-- Claim C4 (amended): the normalization step applies a two-pass filter
to the whitespace-stripped text: a review is absent from the output (the
output is exactly the output for the batch without it) when its stripped
raw text length is outside `[min_review_length, max_review_length]`, or
when its cleaned text has word count below `min_word_count` or cleaned
length below `min_review_length`. -/
theorem claim_C4_two_pass_filter (cfg : ProcessingConfig) (r : Review)
    (rs1 rs2 : List Review)
    (h : (stripCp r.text).length < cfg.min_review_length ∨
      cfg.max_review_length < (stripCp r.text).length ∨
      (splitWs (clean_text (stripCp r.text))).length < cfg.min_word_count ∨
      (clean_text (stripCp r.text)).length < cfg.min_review_length) :
    clean_reviews cfg (rs1 ++ r :: rs2) = clean_reviews cfg (rs1 ++ rs2) := by
  have hnone : clean_one_review cfg r = none := by
    simp only [clean_one_review]
    split_ifs with h1 h2 h3
    · rfl
    · rfl
    · rfl
    · exfalso
      rcases h with h | h | h | h
      · exact h1 (Or.inl h)
      · exact h1 (Or.inr h)
      · exact h2 h
      · exact h3 h
  unfold clean_reviews
  rw [List.filterMap_append, List.filterMap_append]
  congr 1
  rw [List.filterMap_cons_none hnone]

set_option maxRecDepth 8000 in
/-- Claim C4, counterexample to the claim as stated: `longReview` has raw
text length 1001, outside the default `[20, 1000]`, yet it is not absent
from the output (the raw text is stripped of whitespace before the length
check, and the stripped length 21 is in range); and for the Scenario-B
batch `[okReview, goodReview]` the output count equals the count without
`okReview` — it is not one less than it. -/
theorem claim_C4_counterexample :
    (longReview.text.length = 1001 ∧
      (clean_reviews defaultProcessingConfig [longReview]).length = 1) ∧
    ((clean_reviews defaultProcessingConfig [okReview, goodReview]).length = 1 ∧
      (clean_reviews defaultProcessingConfig [goodReview]).length = 1 ∧
      ¬((clean_reviews defaultProcessingConfig [okReview, goodReview]).length =
        (clean_reviews defaultProcessingConfig [goodReview]).length - 1)) := by
  exact ⟨⟨by decide, by decide⟩, by decide, by decide, by decide⟩

/-- Claim C4, witness: dropping the too-short `okReview` from a concrete
batch leaves the output unchanged. -/
theorem claim_C4_witness :
    ((stripCp okReview.text).length < defaultProcessingConfig.min_review_length ∨
      defaultProcessingConfig.max_review_length < (stripCp okReview.text).length ∨
      (splitWs (clean_text (stripCp okReview.text))).length <
        defaultProcessingConfig.min_word_count ∨
      (clean_text (stripCp okReview.text)).length <
        defaultProcessingConfig.min_review_length) ∧
    clean_reviews defaultProcessingConfig ([] ++ okReview :: [goodReview]) =
      clean_reviews defaultProcessingConfig ([] ++ [goodReview]) :=
  ⟨Or.inl (by decide),
    claim_C4_two_pass_filter defaultProcessingConfig okReview [] [goodReview]
      (Or.inl (by decide))⟩

/-- Claim C5, counterexample to the claim as stated: on a response whose
only marker-like line is the literal `"## RECOMMENDATIONS"` (the string
the claim quotes), the parser recognises no section at all and falls back
to returning the whole response under `insights` — not
`insights = ""` and `recommendations = <the lines>` as claimed.  The
code's actual marker is `'## 🎯 UX RECOMMENDATIONS'`. -/
theorem claim_C5_counterexample :
    (parse_comprehensive_response cexResponse).insights = cexResponse ∧
    (parse_comprehensive_response cexResponse).insights ≠ [] ∧
    (parse_comprehensive_response cexResponse).recommendations = [] := by
  exact ⟨by decide, by decide, by decide⟩

/-- Claim C5 (amended): `parse_comprehensive_response` accumulates the
stripped lines following a recognised marker; a response consisting of the
code's actual recommendations marker (`'## 🎯 UX RECOMMENDATIONS'`)
followed by a line yields empty `insights` and `summary` with the line
under `recommendations`; and a response in which no stripped line starts
with any of the three markers is returned whole under `insights` with the
other fields empty. -/
theorem claim_C5_parse_response (response : List Nat)
    (hnomark : ∀ line ∈ splitOnNl response,
      insightsMarker.isPrefixOf (stripCp line) = false ∧
      recommendationsMarker.isPrefixOf (stripCp line) = false ∧
      summaryMarker.isPrefixOf (stripCp line) = false) :
    parse_comprehensive_response response = ⟨response, [], []⟩ ∧
    parse_comprehensive_response scenCResponse =
      ⟨[], enc "add dark mode" ++ [10], []⟩ := by
  refine ⟨?_, by decide⟩
  have hfold : ∀ (lines : List (List Nat)),
      (∀ line ∈ lines,
        insightsMarker.isPrefixOf (stripCp line) = false ∧
        recommendationsMarker.isPrefixOf (stripCp line) = false ∧
        summaryMarker.isPrefixOf (stripCp line) = false) →
      lines.foldl parseLine (none, (⟨[], [], []⟩ : ParsedSections)) =
        (none, ⟨[], [], []⟩) := by
    intro lines
    induction lines with
    | nil => intro _; rfl
    | cons l ls ih =>
      intro hl
      obtain ⟨h1, h2, h3⟩ := hl l (List.mem_cons_self _ _)
      rw [List.foldl_cons]
      have hstep : parseLine (none, (⟨[], [], []⟩ : ParsedSections)) l =
          (none, ⟨[], [], []⟩) := by
        simp only [parseLine, h1, h2, h3, Bool.false_eq_true, if_false]
      rw [hstep]
      exact ih (fun line hline => hl line (List.mem_cons_of_mem _ hline))
  simp only [parse_comprehensive_response]
  rw [hfold _ hnomark]
  simp

/-- Claim C5, witness: a concrete marker-free response is returned whole
under `insights`. -/
theorem claim_C5_witness :
    (∀ line ∈ splitOnNl dResponse,
      insightsMarker.isPrefixOf (stripCp line) = false ∧
      recommendationsMarker.isPrefixOf (stripCp line) = false ∧
      summaryMarker.isPrefixOf (stripCp line) = false) ∧
    parse_comprehensive_response dResponse = ⟨dResponse, [], []⟩ :=
  ⟨by decide, (claim_C5_parse_response dResponse (by decide)).1⟩

theorem mem_indicesOf {labels : List Nat} {l i : Nat} :
    i ∈ indicesOf labels l ↔ i < labels.length ∧ labels.getD i (l + 1) = l := by
  unfold indicesOf
  simp [List.mem_filter, List.mem_range]

theorem indicesOf_label {labels : List Nat} {l i : Nat} (h : i ∈ indicesOf labels l) :
    ∀ l', i ∈ indicesOf labels l' → l = l' := by
  intro l' h'
  obtain ⟨hi, hg⟩ := mem_indicesOf.mp h
  obtain ⟨_, hg'⟩ := mem_indicesOf.mp h'
  rw [List.getD_eq_getElem _ _ hi] at hg hg'
  exact hg ▸ hg'

/-- Claim C1: for every clustering call whose fitted label list has one
label per feature-matrix row, the produced clusters' member-index sets
cover exactly the row indices `{0, ..., n-1}`, are pairwise disjoint, and
every row index lies in exactly one cluster. -/
theorem claim_C1_cluster_partition
    (fit_predict : Nat → Nat → Nat → List (List ℚ) → List Nat)
    (k : Nat) (matrix : List (List ℚ)) (texts : List (List Nat))
    (reviews : List CleanedReview)
    (hfit : (fit_predict k 42 10 matrix).length = matrix.length) :
    (∀ i, i < matrix.length ↔
      ∃ c ∈ (perform_clustering fit_predict k matrix texts reviews).clusters,
        i ∈ c.indices) ∧
    (∀ c1 ∈ (perform_clustering fit_predict k matrix texts reviews).clusters,
      ∀ c2 ∈ (perform_clustering fit_predict k matrix texts reviews).clusters,
        c1 ≠ c2 → ∀ i, i ∈ c1.indices → i ∉ c2.indices) ∧
    (∀ i, i < matrix.length →
      ∃! c, c ∈ (perform_clustering fit_predict k matrix texts reviews).clusters ∧
        i ∈ c.indices) := by
  simp only [perform_clustering]
  revert hfit
  generalize fit_predict k 42 10 matrix = labels
  intro hfit
  have hdd : ∀ i, i < labels.length → ∀ d1 d2 : Nat, labels.getD i d1 = labels.getD i d2 := by
    intro i hi d1 d2
    rw [List.getD_eq_getElem _ _ hi, List.getD_eq_getElem _ _ hi]
  have hmem : ∀ i, i < labels.length →
      ∃ l, l ∈ labels.dedup ∧ i ∈ indicesOf labels l ∧
        ∀ l', i ∈ indicesOf labels l' → l' = l := by
    intro i hi
    refine ⟨labels.getD i 0, ?_, ?_, ?_⟩
    · rw [List.getD_eq_getElem _ _ hi]
      exact List.mem_dedup.mpr (List.getElem_mem hi)
    · exact mem_indicesOf.mpr ⟨hi, hdd i hi _ _⟩
    · intro l' hl'
      obtain ⟨_, hg'⟩ := mem_indicesOf.mp hl'
      exact hg'.symm.trans (hdd i hi _ _)
  refine ⟨?_, ?_, ?_⟩
  · intro i
    constructor
    · intro hi
      have hi' : i < labels.length := by rw [hfit]; exact hi
      obtain ⟨l, hld, hli, -⟩ := hmem i hi'
      exact ⟨_, List.mem_map_of_mem _ hld, hli⟩
    · rintro ⟨c, hc, hci⟩
      obtain ⟨l, hld, rfl⟩ := List.mem_map.mp hc
      have hlt := (mem_indicesOf.mp hci).1
      rw [← hfit]
      exact hlt
  · rintro c1 hc1 c2 hc2 hne i hi1 hi2
    obtain ⟨l1, hld1, rfl⟩ := List.mem_map.mp hc1
    obtain ⟨l2, hld2, rfl⟩ := List.mem_map.mp hc2
    have hl12 : l1 = l2 := indicesOf_label hi1 l2 hi2
    exact hne (by rw [hl12])
  · intro i hi
    have hi' : i < labels.length := by rw [hfit]; exact hi
    obtain ⟨l, hld, hli, huniq⟩ := hmem i hi'
    refine ⟨_, ⟨List.mem_map_of_mem _ hld, hli⟩, ?_⟩
    rintro c' ⟨hc', hci'⟩
    obtain ⟨l', hld', rfl⟩ := List.mem_map.mp hc'
    rw [huniq l' hci']

/-- Claim C1, witness: a three-row matrix with concrete labels `[0, 1, 0]`
satisfies the one-label-per-row hypothesis, and row 0 lies in some
cluster. -/
theorem claim_C1_witness :
    ((wFitPredict 2 42 10 wMatrix).length = wMatrix.length) ∧
    (0 < wMatrix.length ↔
      ∃ c ∈ (perform_clustering wFitPredict 2 wMatrix [] []).clusters,
        0 ∈ c.indices) :=
  ⟨by decide, (claim_C1_cluster_partition wFitPredict 2 wMatrix [] [] (by decide)).1 0⟩

/-- Claim C9: the summariser emits, for each non-empty cluster in order,
a summary whose representative samples are exactly the first 10 member
reviews in original member order (all of them when fewer), each reduced
to a text-only record; zero-member clusters are skipped, so every emitted
summary has positive size and at most 10 representatives. -/
theorem claim_C9_cluster_summaries (clusters : List (List Nat × List CleanedReview)) :
    (∀ cid revs, (cid, revs) ∈ clusters → revs ≠ [] →
      summaryOfCluster cid revs ∈ prepare_cluster_summaries clusters) ∧
    (∀ s ∈ prepare_cluster_summaries clusters,
      ∃ cid revs, (cid, revs) ∈ clusters ∧ revs ≠ [] ∧ s = summaryOfCluster cid revs) ∧
    (∀ s ∈ prepare_cluster_summaries clusters,
      0 < s.size ∧ s.representative_reviews.length ≤ 10) := by
  refine ⟨?_, ?_, ?_⟩
  · intro cid revs hmem hne
    unfold prepare_cluster_summaries
    apply List.mem_filterMap.mpr
    refine ⟨(cid, revs), hmem, ?_⟩
    rw [if_neg (by simpa [List.isEmpty_iff] using hne)]
  · intro s hs
    obtain ⟨⟨cid, revs⟩, hmem, hf⟩ := List.mem_filterMap.mp hs
    by_cases hne : revs.isEmpty
    · rw [if_pos hne] at hf
      exact absurd hf (by simp)
    · rw [if_neg hne] at hf
      refine ⟨cid, revs, hmem, by simpa [List.isEmpty_iff] using hne, ?_⟩
      exact (Option.some.injEq _ _).mp hf |>.symm
  · intro s hs
    obtain ⟨⟨cid, revs⟩, hmem, hf⟩ := List.mem_filterMap.mp hs
    by_cases hne : revs.isEmpty
    · rw [if_pos hne] at hf
      exact absurd hf (by simp)
    · rw [if_neg hne] at hf
      have hs' : s = summaryOfCluster cid revs := ((Option.some.injEq _ _).mp hf).symm
      subst hs'
      constructor
      · exact List.length_pos.mpr (by simpa [List.isEmpty_iff] using hne)
      · simp only [summaryOfCluster, List.length_map]
        exact List.length_take_le _ _

/-- Claim C9, witness: on a concrete clusters dictionary with one
non-empty and one empty cluster, the summary of the non-empty cluster is
emitted. -/
theorem claim_C9_witness :
    ((enc "cluster_0", [wCReview]) ∈ wClusters ∧ [wCReview] ≠ ([] : List CleanedReview)) ∧
    summaryOfCluster (enc "cluster_0") [wCReview] ∈ prepare_cluster_summaries wClusters :=
  ⟨⟨by decide, by decide⟩,
    (claim_C9_cluster_summaries wClusters).1 (enc "cluster_0") [wCReview]
      (by decide) (by decide)⟩
